import Mathlib

/-!
Verification of the heated-plate Jacobi relaxation program (a1.cpp).

The program solves the steady-state heat equation on an M × N grid by
Jacobi iteration: it stamps Dirichlet boundary values on the four edges
(`setBoundaryValue`), fills the interior with the mean of the boundary
cells (`setAverageBoundary`), then repeatedly replaces every interior
cell by the average of its four neighbors read from a pre-sweep snapshot,
tracking the maximum absolute change `diff`, until `diff < epsilon`
(`getHeat`, with `diff` initialized to `epsilon` by `main`).

Temperatures are modelled as rationals; grids as total functions from a
pair of natural-number indices (row, column) to ℚ, with only the cells
`i < M`, `j < N` meaningful.
-/

/-- A grid of temperatures, indexed by (row, column); this is the shape of
the global arrays `u` and `w` of the program. -/
abbrev Grid : Type := ℕ → ℕ → ℚ

/-- Write value `v` into cell `(i, j)` of grid `g` (the array assignment
`g[i][j] = v`). -/
def setCell (g : Grid) (i j : ℕ) (v : ℚ) : Grid :=
  fun a b => if a = i ∧ b = j then v else g a b

/-- Write the constant `v` into every cell of the list `l`, in order: one
`for` loop performing `g[p.1][p.2] = v` for each `p` in `l`. -/
def stampCells (l : List (ℕ × ℕ)) (v : ℚ) (g : Grid) : Grid :=
  l.foldl (fun h p => setCell h p.1 p.2 v) g

/-- Accumulate `c + Σ g[p.1][p.2]` over the cells of `l`, in order: one
`for` loop performing `s = s + g[p.1][p.2]`. -/
def sumCells (l : List (ℕ × ℕ)) (g : Grid) (c : ℚ) : ℚ :=
  l.foldl (fun s p => s + g p.1 p.2) c

/-- Cells of the west column visited by `for (i = 1; i < M - 1; i++)`:
rows `1 .. M-2` of column `0`. -/
def westCells (M : ℕ) : List (ℕ × ℕ) :=
  (List.range (M - 2)).map fun a => (a + 1, 0)

/-- Cells of the east column visited by `for (i = 1; i < M - 1; i++)`:
rows `1 .. M-2` of column `N-1`. -/
def eastCells (M N : ℕ) : List (ℕ × ℕ) :=
  (List.range (M - 2)).map fun a => (a + 1, N - 1)

/-- Cells of the south row visited by `for (j = 0; j < N; j++)`: all `N`
columns of row `M-1`, corners included. -/
def southCells (M N : ℕ) : List (ℕ × ℕ) :=
  (List.range N).map fun b => (M - 1, b)

/-- Cells of the north row visited by `for (j = 0; j < N; j++)`: all `N`
columns of row `0`, corners included. -/
def northCells (N : ℕ) : List (ℕ × ℕ) :=
  (List.range N).map fun b => (0, b)

/-- The boundary cells in the order the program's four loops visit them:
west column, east column, south row, north row (a1.cpp lines 143-158 and
162-177). -/
def boundaryCellList (M N : ℕ) : List (ℕ × ℕ) :=
  westCells M ++ (eastCells M N ++ (southCells M N ++ northCells N))

/-- `setBoundaryValue` (a1.cpp lines 142-159): stamp `100.0` on the west
column (interior rows), `100.0` on the east column (interior rows),
`100.0` on the whole south row, then `0.0` on the whole north row. -/
def setBoundaryValue (M N : ℕ) (w : Grid) : Grid :=
  let w1 := stampCells (westCells M) 100 w
  let w2 := stampCells (eastCells M N) 100 w1
  let w3 := stampCells (southCells M N) 100 w2
  stampCells (northCells N) 0 w3

/-- The interior cells in row-major order, as visited by the program's
nested loops `for (i = 1; i < M - 1; i++) for (j = 1; j < N - 1; j++)`. -/
def interiorCells (M N : ℕ) : List (ℕ × ℕ) :=
  (List.range (M - 2)).flatMap fun a => (List.range (N - 2)).map fun b => (a + 1, b + 1)

/-- `setAverageBoundary` (a1.cpp lines 160-190): sum the boundary cells in
the order west column, east column, south row, north row, divide by
`2*M + 2*N - 4` to get `mean`, and write `mean` into every interior cell. -/
def setAverageBoundary (M N : ℕ) (w : Grid) : Grid :=
  let s1 := sumCells (westCells M) w 0
  let s2 := sumCells (eastCells M N) w s1
  let s3 := sumCells (southCells M N) w s2
  let s4 := sumCells (northCells N) w s3
  let mean := s4 / ((2 * M + 2 * N - 4 : ℕ) : ℚ)
  stampCells (interiorCells M N) mean w

/-- The initial grid of the program: global arrays are zero-initialized,
then `main` calls `setBoundaryValue()` and `setAverageBoundary()`. -/
def initialGrid (M N : ℕ) : Grid :=
  setAverageBoundary M N (setBoundaryValue M N (fun _ _ => 0))

/-- The Jacobi update `(u[i-1][j] + u[i+1][j] + u[i][j-1] + u[i][j+1]) / 4.0`
read from the snapshot grid `u` (a1.cpp line 239). -/
def jacobiAvg (u : Grid) (i j : ℕ) : ℚ :=
  (u (i - 1) j + u (i + 1) j + u i (j - 1) + u i (j + 1)) / 4

/-- The body of the interior update loop for one cell `p` (a1.cpp lines
239-244): write the Jacobi average of the `u`-neighbors of `p` into the
current grid, read the written cell back, and raise `diff` to the absolute
change if it is larger. -/
def sweepCell (u : Grid) (wd : Grid × ℚ) (p : ℕ × ℕ) : Grid × ℚ :=
  let w' := setCell wd.1 p.1 p.2 (jacobiAvg u p.1 p.2)
  let change := |w' p.1 p.2 - u p.1 p.2|
  (w', if wd.2 < change then change else wd.2)

/-- One full sweep of the while-loop body (a1.cpp lines 222-246): snapshot
the whole current grid into `u` (here: the immutable argument `w`), reset
`diff` to `0`, and update every interior cell in row-major order, reading
all neighbors from the snapshot. Returns the new grid and the sweep's
`diff`. -/
def sweep (M N : ℕ) (w : Grid) : Grid × ℚ :=
  (interiorCells M N).foldl (sweepCell w) (w, 0)

/-- The mutable state of `getHeat`: the current grid `w`, the convergence
metric `diff`, and the iteration counter. -/
structure HeatState where
  w : Grid
  diff : ℚ
  iterations : ℕ

/-- One iteration of the while loop: perform a sweep and increment the
iteration counter (a1.cpp lines 222-247). -/
def loopStep (M N : ℕ) (s : HeatState) : HeatState :=
  ⟨(sweep M N s.w).1, (sweep M N s.w).2, s.iterations + 1⟩

/-- The while loop `while (epsilon <= diff)` of `getHeat` (a1.cpp line
217), with explicit fuel: `none` means the loop did not terminate within
`fuel` iterations, `some s` means it exited with final state `s`. -/
def heatLoop (M N : ℕ) (eps : ℚ) : ℕ → HeatState → Option HeatState
  | 0, s => if eps ≤ s.diff then none else some s
  | fuel + 1, s => if eps ≤ s.diff then heatLoop M N eps fuel (loopStep M N s) else some s

/-- `getHeat` as called by `main`: `main` sets `diff = epsilon` (a1.cpp
line 291), `getHeat` sets `iterations = 0` (line 212) and runs the while
loop on the initialized grid `w`. -/
def getHeat (M N : ℕ) (eps : ℚ) (w : Grid) (fuel : ℕ) : Option HeatState :=
  heatLoop M N eps fuel ⟨w, eps, 0⟩

/-- The grid after `k` sweeps, starting from the initialized grid: the
sequence of grids the while loop runs through. -/
def jacobiSeq (M N : ℕ) : ℕ → Grid
  | 0 => initialGrid M N
  | k + 1 => (sweep M N (jacobiSeq M N k)).1

/-! ### Evaluation lemmas for the stamping and summing loops -/

theorem setCell_eval (g : Grid) (i j a b : ℕ) (v : ℚ) :
    setCell g i j v a b = if a = i ∧ b = j then v else g a b := rfl

theorem stampCells_cons (p : ℕ × ℕ) (l : List (ℕ × ℕ)) (v : ℚ) (g : Grid) :
    stampCells (p :: l) v g = stampCells l v (setCell g p.1 p.2 v) := rfl

theorem stampCells_eval (l : List (ℕ × ℕ)) (v : ℚ) (g : Grid) (i j : ℕ) :
    stampCells l v g i j = if (i, j) ∈ l then v else g i j := by
  induction l generalizing g with
  | nil => simp [stampCells]
  | cons p l ih =>
    obtain ⟨p1, p2⟩ := p
    rw [stampCells_cons, ih]
    simp only [List.mem_cons, setCell_eval, Prod.mk.injEq]
    split_ifs <;> tauto

theorem sumCells_cons (p : ℕ × ℕ) (l : List (ℕ × ℕ)) (g : Grid) (c : ℚ) :
    sumCells (p :: l) g c = sumCells l g (c + g p.1 p.2) := rfl

theorem sumCells_eq (l : List (ℕ × ℕ)) (g : Grid) (c : ℚ) :
    sumCells l g c = c + (l.map fun p => g p.1 p.2).sum := by
  induction l generalizing c with
  | nil => simp [sumCells]
  | cons p l ih => rw [sumCells_cons, ih]; simp; ring

theorem sumCells_append (l l' : List (ℕ × ℕ)) (g : Grid) (c : ℚ) :
    sumCells (l ++ l') g c = sumCells l' g (sumCells l g c) := by
  simp [sumCells, List.foldl_append]

theorem mem_interiorCells (M N i j : ℕ) :
    (i, j) ∈ interiorCells M N ↔ 1 ≤ i ∧ i ≤ M - 2 ∧ 1 ≤ j ∧ j ≤ N - 2 := by
  simp only [interiorCells, List.mem_flatMap, List.mem_map, List.mem_range, Prod.mk.injEq]
  constructor
  · rintro ⟨a, ha, b, hb, rfl, rfl⟩
    omega
  · rintro ⟨h1, h2, h3, h4⟩
    exact ⟨i - 1, by omega, j - 1, by omega, by omega, by omega⟩

/-! ### The sweep: characterization of the updated grid and of `diff` -/

theorem if_lt_eq_max (d c : ℚ) : (if d < c then c else d) = max d c := by
  rcases lt_or_le d c with h | h
  · simp [h, max_eq_right h.le]
  · simp [not_lt.2 h, max_eq_left h]

theorem sweepCell_foldl_fst (u : Grid) (l : List (ℕ × ℕ)) (wd : Grid × ℚ) (i j : ℕ) :
    (l.foldl (sweepCell u) wd).1 i j = if (i, j) ∈ l then jacobiAvg u i j else wd.1 i j := by
  induction l generalizing wd with
  | nil => simp
  | cons p l ih =>
    obtain ⟨p1, p2⟩ := p
    rw [List.foldl_cons, ih]
    by_cases hl : (i, j) ∈ l
    · simp [hl]
    · by_cases hp : i = p1 ∧ j = p2
      · obtain ⟨rfl, rfl⟩ := hp
        simp [hl, sweepCell, setCell_eval]
      · have hne : ¬((i, j) = (p1, p2)) := by
          simp only [Prod.mk.injEq]
          tauto
        simp [hl, hne, sweepCell, setCell_eval, hp]

theorem sweepCell_foldl_snd (u : Grid) (l : List (ℕ × ℕ)) (wd : Grid × ℚ) :
    (l.foldl (sweepCell u) wd).2
      = l.foldl (fun d p => max d |jacobiAvg u p.1 p.2 - u p.1 p.2|) wd.2 := by
  induction l generalizing wd with
  | nil => rfl
  | cons p l ih =>
    obtain ⟨p1, p2⟩ := p
    rw [List.foldl_cons, ih, List.foldl_cons]
    have h2 : (sweepCell u wd (p1, p2)).2
        = max wd.2 |jacobiAvg u p1 p2 - u p1 p2| := by
      simp [sweepCell, setCell_eval, if_lt_eq_max]
    rw [h2]

theorem sweep_interior (M N : ℕ) (w : Grid) (i j : ℕ)
    (h1 : 1 ≤ i) (h2 : i ≤ M - 2) (h3 : 1 ≤ j) (h4 : j ≤ N - 2) :
    (sweep M N w).1 i j = jacobiAvg w i j := by
  rw [sweep, sweepCell_foldl_fst, if_pos ((mem_interiorCells M N i j).2 ⟨h1, h2, h3, h4⟩)]

theorem sweep_not_interior (M N : ℕ) (w : Grid) (i j : ℕ)
    (h : ¬(1 ≤ i ∧ i ≤ M - 2 ∧ 1 ≤ j ∧ j ≤ N - 2)) :
    (sweep M N w).1 i j = w i j := by
  rw [sweep, sweepCell_foldl_fst, if_neg (fun hm => h ((mem_interiorCells M N i j).1 hm))]

theorem sweep_diff_eq (M N : ℕ) (w : Grid) :
    (sweep M N w).2
      = (interiorCells M N).foldl (fun d p => max d |jacobiAvg w p.1 p.2 - w p.1 p.2|) 0 := by
  rw [sweep, sweepCell_foldl_snd]

/-! ### Bounds on a `foldl max` accumulation -/

theorem foldl_max_mono (f : ℕ × ℕ → ℚ) (l : List (ℕ × ℕ)) (d d' : ℚ) (h : d ≤ d') :
    l.foldl (fun a p => max a (f p)) d ≤ l.foldl (fun a p => max a (f p)) d' := by
  induction l generalizing d d' with
  | nil => exact h
  | cons p l ih => exact ih _ _ (max_le_max h le_rfl)

theorem init_le_foldl_max (f : ℕ × ℕ → ℚ) (l : List (ℕ × ℕ)) (d : ℚ) :
    d ≤ l.foldl (fun a p => max a (f p)) d := by
  induction l generalizing d with
  | nil => exact le_rfl
  | cons p l ih => exact le_trans (le_max_left d (f p)) (ih (max d (f p)))

theorem mem_le_foldl_max (f : ℕ × ℕ → ℚ) (l : List (ℕ × ℕ)) (d : ℚ) (p : ℕ × ℕ)
    (hp : p ∈ l) : f p ≤ l.foldl (fun a p => max a (f p)) d := by
  induction l generalizing d with
  | nil => cases hp
  | cons q l ih =>
    rcases List.mem_cons.1 hp with rfl | hm
    · exact le_trans (le_max_right d (f p)) (init_le_foldl_max f l (max d (f p)))
    · exact ih (max d (f q)) hm

theorem sweep_diff_nonneg (M N : ℕ) (w : Grid) : 0 ≤ (sweep M N w).2 := by
  rw [sweep_diff_eq]
  exact init_le_foldl_max _ _ 0

theorem sweep_change_le (M N : ℕ) (w : Grid) (i j : ℕ) :
    |(sweep M N w).1 i j - w i j| ≤ (sweep M N w).2 := by
  by_cases h : 1 ≤ i ∧ i ≤ M - 2 ∧ 1 ≤ j ∧ j ≤ N - 2
  · rw [sweep_interior M N w i j h.1 h.2.1 h.2.2.1 h.2.2.2, sweep_diff_eq]
    exact mem_le_foldl_max (fun p => |jacobiAvg w p.1 p.2 - w p.1 p.2|) _ 0 (i, j)
      ((mem_interiorCells M N i j).2 h)
  · rw [sweep_not_interior M N w i j h]
    simpa using sweep_diff_nonneg M N w

/-! ### Membership in the four boundary stamping loops -/

theorem mem_westCells (M i j : ℕ) :
    (i, j) ∈ westCells M ↔ 1 ≤ i ∧ i ≤ M - 2 ∧ j = 0 := by
  simp only [westCells, List.mem_map, List.mem_range, Prod.mk.injEq]
  constructor
  · rintro ⟨a, ha, rfl, rfl⟩
    omega
  · rintro ⟨h1, h2, rfl⟩
    exact ⟨i - 1, by omega, by omega, rfl⟩

theorem mem_eastCells (M N i j : ℕ) :
    (i, j) ∈ eastCells M N ↔ 1 ≤ i ∧ i ≤ M - 2 ∧ j = N - 1 := by
  simp only [eastCells, List.mem_map, List.mem_range, Prod.mk.injEq]
  constructor
  · rintro ⟨a, ha, rfl, rfl⟩
    omega
  · rintro ⟨h1, h2, rfl⟩
    exact ⟨i - 1, by omega, by omega, rfl⟩

theorem mem_southCells (M N i j : ℕ) :
    (i, j) ∈ southCells M N ↔ i = M - 1 ∧ j < N := by
  simp only [southCells, List.mem_map, List.mem_range, Prod.mk.injEq]
  constructor
  · rintro ⟨b, hb, rfl, rfl⟩
    omega
  · rintro ⟨rfl, hj⟩
    exact ⟨j, hj, rfl, rfl⟩

theorem mem_northCells (N i j : ℕ) :
    (i, j) ∈ northCells N ↔ i = 0 ∧ j < N := by
  simp only [northCells, List.mem_map, List.mem_range, Prod.mk.injEq]
  constructor
  · rintro ⟨b, hb, rfl, rfl⟩
    omega
  · rintro ⟨rfl, hj⟩
    exact ⟨j, hj, rfl, rfl⟩

/-! ### Evaluation of `setBoundaryValue` -/

theorem setBoundaryValue_north (M N : ℕ) (w : Grid) (j : ℕ) (hj : j < N) :
    setBoundaryValue M N w 0 j = 0 := by
  simp only [setBoundaryValue]
  rw [stampCells_eval, if_pos ((mem_northCells N 0 j).2 ⟨rfl, hj⟩)]

theorem setBoundaryValue_south (M N : ℕ) (w : Grid) (j : ℕ) (hM : 3 ≤ M) (hj : j < N) :
    setBoundaryValue M N w (M - 1) j = 100 := by
  simp only [setBoundaryValue]
  rw [stampCells_eval,
    if_neg (fun hm => by have := (mem_northCells N (M - 1) j).1 hm; omega),
    stampCells_eval, if_pos ((mem_southCells M N (M - 1) j).2 ⟨rfl, hj⟩)]

theorem setBoundaryValue_west (M N : ℕ) (w : Grid) (i : ℕ) (hM : 3 ≤ M) (hN : 3 ≤ N)
    (h1 : 1 ≤ i) (h2 : i ≤ M - 2) :
    setBoundaryValue M N w i 0 = 100 := by
  simp only [setBoundaryValue]
  rw [stampCells_eval,
    if_neg (fun hm => by have := (mem_northCells N i 0).1 hm; omega),
    stampCells_eval,
    if_neg (fun hm => by have := (mem_southCells M N i 0).1 hm; omega),
    stampCells_eval,
    if_neg (fun hm => by have := (mem_eastCells M N i 0).1 hm; omega),
    stampCells_eval, if_pos ((mem_westCells M i 0).2 ⟨h1, h2, rfl⟩)]

theorem setBoundaryValue_east (M N : ℕ) (w : Grid) (i : ℕ) (hM : 3 ≤ M) (hN : 3 ≤ N)
    (h1 : 1 ≤ i) (h2 : i ≤ M - 2) :
    setBoundaryValue M N w i (N - 1) = 100 := by
  simp only [setBoundaryValue]
  rw [stampCells_eval,
    if_neg (fun hm => by have := (mem_northCells N i (N - 1)).1 hm; omega),
    stampCells_eval,
    if_neg (fun hm => by have := (mem_southCells M N i (N - 1)).1 hm; omega),
    stampCells_eval, if_pos ((mem_eastCells M N i (N - 1)).2 ⟨h1, h2, rfl⟩)]

theorem setBoundaryValue_interior (M N : ℕ) (w : Grid) (i j : ℕ) (hM : 3 ≤ M) (hN : 3 ≤ N)
    (h1 : 1 ≤ i) (h2 : i ≤ M - 2) (h3 : 1 ≤ j) (h4 : j ≤ N - 2) :
    setBoundaryValue M N w i j = w i j := by
  simp only [setBoundaryValue]
  rw [stampCells_eval,
    if_neg (fun hm => by have := (mem_northCells N i j).1 hm; omega),
    stampCells_eval,
    if_neg (fun hm => by have := (mem_southCells M N i j).1 hm; omega),
    stampCells_eval,
    if_neg (fun hm => by have := (mem_eastCells M N i j).1 hm; omega),
    stampCells_eval,
    if_neg (fun hm => by have := (mem_westCells M i j).1 hm; omega)]

/-! ### The boundary cell list: coverage, no duplicates, length -/

theorem mem_boundaryCellList (M N i j : ℕ) (hM : 3 ≤ M) (hN : 3 ≤ N) :
    (i, j) ∈ boundaryCellList M N
      ↔ i < M ∧ j < N ∧ (i = 0 ∨ i = M - 1 ∨ j = 0 ∨ j = N - 1) := by
  simp only [boundaryCellList, List.mem_append, mem_westCells, mem_eastCells, mem_southCells,
    mem_northCells]
  omega

theorem boundaryCellList_nodup (M N : ℕ) (hM : 3 ≤ M) (hN : 3 ≤ N) :
    (boundaryCellList M N).Nodup := by
  have hw : (westCells M).Nodup :=
    (List.nodup_range (M - 2)).map (fun a b h => by simpa using h)
  have he : (eastCells M N).Nodup :=
    (List.nodup_range (M - 2)).map (fun a b h => by simpa using h)
  have hs : (southCells M N).Nodup :=
    (List.nodup_range N).map (fun a b h => by simpa using h)
  have hn : (northCells N).Nodup :=
    (List.nodup_range N).map (fun a b h => by simpa using h)
  rw [boundaryCellList, List.nodup_append, List.nodup_append, List.nodup_append]
  refine ⟨hw, ⟨he, ⟨hs, hn, ?_⟩, ?_⟩, ?_⟩
  · intro p hp hq
    obtain ⟨i, j⟩ := p
    rw [mem_southCells] at hp
    rw [mem_northCells] at hq
    omega
  · intro p hp hq
    obtain ⟨i, j⟩ := p
    rw [mem_eastCells] at hp
    rcases List.mem_append.1 hq with h | h
    · rw [mem_southCells] at h
      omega
    · rw [mem_northCells] at h
      omega
  · intro p hp hq
    obtain ⟨i, j⟩ := p
    rw [mem_westCells] at hp
    rcases List.mem_append.1 hq with h | hq'
    · rw [mem_eastCells] at h
      omega
    · rcases List.mem_append.1 hq' with h | h
      · rw [mem_southCells] at h
        omega
      · rw [mem_northCells] at h
        omega

theorem boundaryCellList_length (M N : ℕ) (hM : 3 ≤ M) (hN : 3 ≤ N) :
    (boundaryCellList M N).length = 2 * M + 2 * N - 4 := by
  simp only [boundaryCellList, westCells, eastCells, southCells, northCells, List.length_append,
    List.length_map, List.length_range]
  omega

/-! ### Evaluation of `setAverageBoundary` -/

theorem setAverageBoundary_eval (M N : ℕ) (g : Grid) (i j : ℕ) :
    setAverageBoundary M N g i j
      = if (i, j) ∈ interiorCells M N then
          ((boundaryCellList M N).map fun p => g p.1 p.2).sum / ((2 * M + 2 * N - 4 : ℕ) : ℚ)
        else g i j := by
  have hsum : sumCells (northCells N) g
      (sumCells (southCells M N) g (sumCells (eastCells M N) g (sumCells (westCells M) g 0)))
      = ((boundaryCellList M N).map fun p => g p.1 p.2).sum := by
    rw [← zero_add (((boundaryCellList M N).map fun p => g p.1 p.2).sum), ← sumCells_eq,
      boundaryCellList, sumCells_append, sumCells_append, sumCells_append]
  simp only [setAverageBoundary]
  rw [stampCells_eval, hsum]

theorem setAverageBoundary_interior (M N : ℕ) (g : Grid) (i j : ℕ)
    (h1 : 1 ≤ i) (h2 : i ≤ M - 2) (h3 : 1 ≤ j) (h4 : j ≤ N - 2) :
    setAverageBoundary M N g i j
      = ((boundaryCellList M N).map fun p => g p.1 p.2).sum / ((2 * M + 2 * N - 4 : ℕ) : ℚ) := by
  rw [setAverageBoundary_eval,
    if_pos ((mem_interiorCells M N i j).2 ⟨h1, h2, h3, h4⟩)]

theorem setAverageBoundary_not_interior (M N : ℕ) (g : Grid) (i j : ℕ)
    (h : ¬(1 ≤ i ∧ i ≤ M - 2 ∧ 1 ≤ j ∧ j ≤ N - 2)) :
    setAverageBoundary M N g i j = g i j := by
  rw [setAverageBoundary_eval,
    if_neg (fun hm => h ((mem_interiorCells M N i j).1 hm))]

/-! ### The while loop: basic stepping lemmas -/

theorem heatLoop_zero (M N : ℕ) (eps : ℚ) (s : HeatState) :
    heatLoop M N eps 0 s = if eps ≤ s.diff then none else some s := rfl

theorem heatLoop_succ (M N : ℕ) (eps : ℚ) (fuel : ℕ) (s : HeatState) :
    heatLoop M N eps (fuel + 1) s
      = if eps ≤ s.diff then heatLoop M N eps fuel (loopStep M N s) else some s := rfl

theorem heatLoop_of_lt (M N : ℕ) (eps : ℚ) (fuel : ℕ) (s : HeatState) (h : s.diff < eps) :
    heatLoop M N eps fuel s = some s := by
  cases fuel with
  | zero => rw [heatLoop_zero, if_neg (not_le.2 h)]
  | succ fuel => rw [heatLoop_succ, if_neg (not_le.2 h)]

theorem heatLoop_of_le (M N : ℕ) (eps : ℚ) (fuel : ℕ) (s : HeatState) (h : eps ≤ s.diff) :
    heatLoop M N eps (fuel + 1) s = heatLoop M N eps fuel (loopStep M N s) := by
  rw [heatLoop_succ, if_pos h]

theorem heatLoop_some_diff_lt (M N : ℕ) (eps : ℚ) (fuel : ℕ) (s t : HeatState)
    (h : heatLoop M N eps fuel s = some t) : t.diff < eps := by
  induction fuel generalizing s with
  | zero =>
    rw [heatLoop_zero] at h
    by_cases hc : eps ≤ s.diff
    · rw [if_pos hc] at h
      cases h
    · rw [if_neg hc] at h
      cases h
      exact not_le.1 hc
  | succ fuel ih =>
    rw [heatLoop_succ] at h
    by_cases hc : eps ≤ s.diff
    · rw [if_pos hc] at h
      exact ih (loopStep M N s) h
    · rw [if_neg hc] at h
      cases h
      exact not_le.1 hc

theorem heatLoop_some_shape (M N : ℕ) (eps : ℚ) (fuel : ℕ) (s t : HeatState)
    (h : heatLoop M N eps fuel s = some t) :
    t = s ∨ ∃ s', t = loopStep M N s' := by
  induction fuel generalizing s with
  | zero =>
    rw [heatLoop_zero] at h
    by_cases hc : eps ≤ s.diff
    · rw [if_pos hc] at h
      cases h
    · rw [if_neg hc] at h
      cases h
      exact Or.inl rfl
  | succ fuel ih =>
    rw [heatLoop_succ] at h
    by_cases hc : eps ≤ s.diff
    · rw [if_pos hc] at h
      rcases ih (loopStep M N s) h with rfl | hex
      · exact Or.inr ⟨s, rfl⟩
      · exact Or.inr hex
    · rw [if_neg hc] at h
      cases h
      exact Or.inl rfl

theorem heatLoop_iterations_pos (M N : ℕ) (eps : ℚ) (fuel : ℕ) (s t : HeatState)
    (h : heatLoop M N eps fuel s = some t) (hs : eps ≤ s.diff) : 1 ≤ t.iterations := by
  induction fuel generalizing s with
  | zero =>
    rw [heatLoop_zero, if_pos hs] at h
    cases h
  | succ fuel ih =>
    rw [heatLoop_succ, if_pos hs] at h
    by_cases hc : eps ≤ (loopStep M N s).diff
    · exact ih (loopStep M N s) h hc
    · rw [heatLoop_of_lt M N eps fuel (loopStep M N s) (not_le.1 hc)] at h
      cases h
      exact Nat.le_add_left 1 s.iterations

theorem heatLoop_none_of_nonpos (M N : ℕ) (eps : ℚ) (heps : eps ≤ 0) (fuel : ℕ)
    (s : HeatState) (hs : eps ≤ s.diff) : heatLoop M N eps fuel s = none := by
  induction fuel generalizing s with
  | zero => rw [heatLoop_zero, if_pos hs]
  | succ fuel ih =>
    rw [heatLoop_succ, if_pos hs]
    exact ih (loopStep M N s) (le_trans heps (sweep_diff_nonneg M N s.w))

theorem getHeat_none_of_nonpos (M N : ℕ) (eps : ℚ) (heps : eps ≤ 0) (w : Grid) (fuel : ℕ) :
    getHeat M N eps w fuel = none :=
  heatLoop_none_of_nonpos M N eps heps fuel ⟨w, eps, 0⟩ le_rfl

/-! ### A sweep leaves every interior cell within `diff` of the average of
its four neighbors in the new grid -/

theorem abs_add_four_le (a b c e d : ℚ) (ha : |a| ≤ d) (hb : |b| ≤ d) (hc : |c| ≤ d)
    (he : |e| ≤ d) : |a + b + c + e| ≤ 4 * d := by
  have h1 : |a + b| ≤ |a| + |b| := abs_add a b
  have h2 : |a + b + c| ≤ |a + b| + |c| := abs_add (a + b) c
  have h3 : |a + b + c + e| ≤ |a + b + c| + |e| := abs_add (a + b + c) e
  linarith

theorem sweep_near_fixpoint (M N : ℕ) (w : Grid) (i j : ℕ)
    (h1 : 1 ≤ i) (h2 : i ≤ M - 2) (h3 : 1 ≤ j) (h4 : j ≤ N - 2) :
    |(sweep M N w).1 i j - jacobiAvg (sweep M N w).1 i j| ≤ (sweep M N w).2 := by
  have ha : |w (i - 1) j - (sweep M N w).1 (i - 1) j| ≤ (sweep M N w).2 := by
    rw [abs_sub_comm]
    exact sweep_change_le M N w (i - 1) j
  have hb : |w (i + 1) j - (sweep M N w).1 (i + 1) j| ≤ (sweep M N w).2 := by
    rw [abs_sub_comm]
    exact sweep_change_le M N w (i + 1) j
  have hc : |w i (j - 1) - (sweep M N w).1 i (j - 1)| ≤ (sweep M N w).2 := by
    rw [abs_sub_comm]
    exact sweep_change_le M N w i (j - 1)
  have he : |w i (j + 1) - (sweep M N w).1 i (j + 1)| ≤ (sweep M N w).2 := by
    rw [abs_sub_comm]
    exact sweep_change_le M N w i (j + 1)
  rw [sweep_interior M N w i j h1 h2 h3 h4]
  rw [jacobiAvg, jacobiAvg, div_sub_div_same, abs_div]
  rw [show |(4 : ℚ)| = 4 by norm_num]
  rw [div_le_iff₀ (by norm_num : (0 : ℚ) < 4)]
  have hsplit : w (i - 1) j + w (i + 1) j + w i (j - 1) + w i (j + 1)
      - ((sweep M N w).1 (i - 1) j + (sweep M N w).1 (i + 1) j
          + (sweep M N w).1 i (j - 1) + (sweep M N w).1 i (j + 1))
      = (w (i - 1) j - (sweep M N w).1 (i - 1) j) + (w (i + 1) j - (sweep M N w).1 (i + 1) j)
          + (w i (j - 1) - (sweep M N w).1 i (j - 1))
          + (w i (j + 1) - (sweep M N w).1 i (j + 1)) := by ring
  rw [hsplit]
  have := abs_add_four_le _ _ _ _ _ ha hb hc he
  linarith

/-! ### Concrete evaluation on the minimal 3 × 3 grid with the default
boundary values -/

theorem interiorCells_three : interiorCells 3 3 = [(1, 1)] := rfl

theorem initialGrid3_north : initialGrid 3 3 0 1 = 0 := rfl

theorem initialGrid3_south : initialGrid 3 3 2 1 = 100 := rfl

theorem initialGrid3_west : initialGrid 3 3 1 0 = 100 := rfl

theorem initialGrid3_east : initialGrid 3 3 1 2 = 100 := rfl

theorem initialGrid3_center : initialGrid 3 3 1 1 = 125 / 2 := by
  rw [initialGrid, setAverageBoundary_interior 3 3 _ 1 1 le_rfl (by norm_num) le_rfl (by norm_num)]
  rw [show ((boundaryCellList 3 3).map
      fun p => setBoundaryValue 3 3 (fun _ _ => 0) p.1 p.2)
      = [100, 100, 100, 100, 100, 0, 0, 0] from rfl]
  norm_num [List.sum_cons]

theorem jacobiAvg_initialGrid3 : jacobiAvg (initialGrid 3 3) 1 1 = 75 := by
  rw [jacobiAvg]
  norm_num [initialGrid3_north, initialGrid3_south, initialGrid3_west, initialGrid3_east]

theorem sweep3_center : (sweep 3 3 (initialGrid 3 3)).1 1 1 = 75 := by
  rw [sweep_interior 3 3 _ 1 1 le_rfl (by norm_num) le_rfl (by norm_num), jacobiAvg_initialGrid3]

theorem sweep3_diff : (sweep 3 3 (initialGrid 3 3)).2 = 25 / 2 := by
  rw [sweep_diff_eq, interiorCells_three]
  simp only [List.foldl_cons, List.foldl_nil]
  rw [jacobiAvg_initialGrid3, initialGrid3_center]
  rw [show (75 : ℚ) - 125 / 2 = 25 / 2 by norm_num,
    abs_of_nonneg (by norm_num : (0 : ℚ) ≤ 25 / 2)]
  exact max_eq_right (by norm_num)

theorem jacobiAvg_sweep3 : jacobiAvg (sweep 3 3 (initialGrid 3 3)).1 1 1 = 75 := by
  rw [jacobiAvg]
  rw [show (1 : ℕ) - 1 = 0 from rfl, show (1 : ℕ) + 1 = 2 from rfl]
  rw [sweep_not_interior 3 3 _ 0 1 (by omega), sweep_not_interior 3 3 _ 2 1 (by omega),
    sweep_not_interior 3 3 _ 1 0 (by omega), sweep_not_interior 3 3 _ 1 2 (by omega)]
  norm_num [initialGrid3_north, initialGrid3_south, initialGrid3_west, initialGrid3_east]

theorem sweep3_second_diff : (sweep 3 3 (sweep 3 3 (initialGrid 3 3)).1).2 = 0 := by
  rw [sweep_diff_eq, interiorCells_three]
  simp only [List.foldl_cons, List.foldl_nil]
  rw [jacobiAvg_sweep3, sweep3_center]
  norm_num

theorem getHeat3_eval (eps : ℚ) (h0 : 0 < eps) (h1 : eps ≤ 25 / 2) (k : ℕ) :
    getHeat 3 3 eps (initialGrid 3 3) (k + 2)
      = some (loopStep 3 3 (loopStep 3 3 ⟨initialGrid 3 3, eps, 0⟩)) := by
  have hd1 : (loopStep 3 3 ⟨initialGrid 3 3, eps, 0⟩).diff = 25 / 2 := sweep3_diff
  have hd2 : (loopStep 3 3 (loopStep 3 3 ⟨initialGrid 3 3, eps, 0⟩)).diff = 0 :=
    sweep3_second_diff
  rw [getHeat, heatLoop_of_le 3 3 eps (k + 1) ⟨initialGrid 3 3, eps, 0⟩ le_rfl,
    heatLoop_of_le 3 3 eps k _ (by rw [hd1]; exact h1),
    heatLoop_of_lt 3 3 eps k _ (by rw [hd2]; exact h0)]

theorem getHeat3_iterations (eps : ℚ) (h0 : 0 < eps) (h1 : eps ≤ 25 / 2) (k : ℕ) :
    (getHeat 3 3 eps (initialGrid 3 3) (k + 2)).map HeatState.iterations = some 2 := by
  rw [getHeat3_eval eps h0 h1 k]
  rfl

/-! ### Range bounds: list sums, the initialized grid, and the sweep -/

theorem list_sum_nonneg (l : List ℚ) (h : ∀ x ∈ l, 0 ≤ x) : 0 ≤ l.sum := by
  induction l with
  | nil => simp
  | cons a l ih =>
    simp only [List.sum_cons]
    have ha := h a (List.mem_cons_self a l)
    have hl := ih fun x hx => h x (List.mem_cons_of_mem a hx)
    linarith

theorem list_sum_le_mul_length (l : List ℚ) (c : ℚ) (h : ∀ x ∈ l, x ≤ c) :
    l.sum ≤ c * (l.length : ℚ) := by
  induction l with
  | nil => simp
  | cons a l ih =>
    simp only [List.sum_cons, List.length_cons]
    have ha := h a (List.mem_cons_self a l)
    have hl := ih fun x hx => h x (List.mem_cons_of_mem a hx)
    push_cast
    ring_nf
    ring_nf at hl
    linarith

theorem setBoundaryValue_boundary_cases (M N : ℕ) (hM : 3 ≤ M) (hN : 3 ≤ N) (i j : ℕ)
    (hmem : (i, j) ∈ boundaryCellList M N) :
    setBoundaryValue M N (fun _ _ => 0) i j = 0
      ∨ setBoundaryValue M N (fun _ _ => 0) i j = 100 := by
  rw [mem_boundaryCellList M N i j hM hN] at hmem
  obtain ⟨hi, hj, hcase⟩ := hmem
  by_cases h0 : i = 0
  · subst h0
    exact Or.inl (setBoundaryValue_north M N _ j hj)
  · by_cases hm : i = M - 1
    · subst hm
      exact Or.inr (setBoundaryValue_south M N _ j hM hj)
    · have h1 : 1 ≤ i := by omega
      have h2 : i ≤ M - 2 := by omega
      by_cases hj0 : j = 0
      · subst hj0
        exact Or.inr (setBoundaryValue_west M N _ i hM hN h1 h2)
      · have hjn : j = N - 1 := by omega
        subst hjn
        exact Or.inr (setBoundaryValue_east M N _ i hM hN h1 h2)

theorem initialGrid_bounds (M N : ℕ) (hM : 3 ≤ M) (hN : 3 ≤ N) (i j : ℕ)
    (hi : i < M) (hj : j < N) :
    0 ≤ initialGrid M N i j ∧ initialGrid M N i j ≤ 100 := by
  by_cases hint : 1 ≤ i ∧ i ≤ M - 2 ∧ 1 ≤ j ∧ j ≤ N - 2
  · rw [initialGrid,
      setAverageBoundary_interior M N _ i j hint.1 hint.2.1 hint.2.2.1 hint.2.2.2]
    have hnn : ∀ x ∈ (boundaryCellList M N).map
        (fun p => setBoundaryValue M N (fun _ _ => 0) p.1 p.2), 0 ≤ x := by
      intro x hx
      rcases List.mem_map.1 hx with ⟨p, hp, rfl⟩
      obtain ⟨pi, pj⟩ := p
      rcases setBoundaryValue_boundary_cases M N hM hN pi pj hp with h | h
      · rw [h]
      · rw [h]; norm_num
    have hle : ∀ x ∈ (boundaryCellList M N).map
        (fun p => setBoundaryValue M N (fun _ _ => 0) p.1 p.2), x ≤ 100 := by
      intro x hx
      rcases List.mem_map.1 hx with ⟨p, hp, rfl⟩
      obtain ⟨pi, pj⟩ := p
      rcases setBoundaryValue_boundary_cases M N hM hN pi pj hp with h | h
      · rw [h]; norm_num
      · rw [h]
    have hS0 := list_sum_nonneg _ hnn
    have hS1 := list_sum_le_mul_length _ 100 hle
    rw [List.length_map, boundaryCellList_length M N hM hN] at hS1
    have hc : (0 : ℚ) < ((2 * M + 2 * N - 4 : ℕ) : ℚ) := by
      have h8 : 0 < 2 * M + 2 * N - 4 := by omega
      exact_mod_cast h8
    constructor
    · exact div_nonneg hS0 hc.le
    · rw [div_le_iff₀ hc]
      linarith
  · rw [initialGrid, setAverageBoundary_not_interior M N _ i j hint]
    have hmem : (i, j) ∈ boundaryCellList M N :=
      (mem_boundaryCellList M N i j hM hN).2 ⟨hi, hj, by omega⟩
    rcases setBoundaryValue_boundary_cases M N hM hN i j hmem with h | h <;> rw [h] <;> norm_num

theorem jacobiSeq_succ (M N k : ℕ) :
    jacobiSeq M N (k + 1) = (sweep M N (jacobiSeq M N k)).1 := rfl

theorem jacobiSeq_bounds_all (M N : ℕ) (hM : 3 ≤ M) (hN : 3 ≤ N) (k : ℕ) :
    ∀ i j, i < M → j < N → 0 ≤ jacobiSeq M N k i j ∧ jacobiSeq M N k i j ≤ 100 := by
  induction k with
  | zero => exact fun i j hi hj => initialGrid_bounds M N hM hN i j hi hj
  | succ k ih =>
    intro i j hi hj
    rw [jacobiSeq_succ]
    by_cases hint : 1 ≤ i ∧ i ≤ M - 2 ∧ 1 ≤ j ∧ j ≤ N - 2
    · rw [sweep_interior M N _ i j hint.1 hint.2.1 hint.2.2.1 hint.2.2.2, jacobiAvg]
      have hA := ih (i - 1) j (by omega) hj
      have hB := ih (i + 1) j (by omega) hj
      have hC := ih i (j - 1) hi (by omega)
      have hD := ih i (j + 1) hi (by omega)
      constructor
      · exact div_nonneg (by linarith) (by norm_num)
      · rw [div_le_iff₀ (by norm_num : (0 : ℚ) < 4)]
        linarith
    · rw [sweep_not_interior M N _ i j hint]
      exact ih i j hi hj

theorem jacobiSeq_boundary_fixed (M N : ℕ) (hM : 3 ≤ M) (hN : 3 ≤ N) (k : ℕ) (i j : ℕ)
    (hb : i = 0 ∨ i = M - 1 ∨ j = 0 ∨ j = N - 1) :
    jacobiSeq M N k i j = initialGrid M N i j := by
  induction k with
  | zero => rfl
  | succ k ih =>
    rw [jacobiSeq_succ, sweep_not_interior M N _ i j (by omega)]
    exact ih

/-! ## The claims -/

/-- C1: a sweep reads all four neighbors of every interior cell `(i, j)`
(with `1 ≤ i ≤ M-2`, `1 ≤ j ≤ N-2`) from the pre-sweep snapshot `w` and
writes their average divided by 4 into the current grid; every other cell
is left unchanged; and the sweep's `diff` is the accumulated maximum,
starting from 0, of `|newValue - previous[i][j]|` over the interior cells
in row-major order, all computed from the snapshot. -/
theorem sweep_spec (M N : ℕ) (w : Grid) :
    (∀ i j, 1 ≤ i → i ≤ M - 2 → 1 ≤ j → j ≤ N - 2 →
      (sweep M N w).1 i j
        = (w (i - 1) j + w (i + 1) j + w i (j - 1) + w i (j + 1)) / 4)
    ∧ (∀ i j, ¬(1 ≤ i ∧ i ≤ M - 2 ∧ 1 ≤ j ∧ j ≤ N - 2) → (sweep M N w).1 i j = w i j)
    ∧ (sweep M N w).2
        = (interiorCells M N).foldl
            (fun d p =>
              max d |(w (p.1 - 1) p.2 + w (p.1 + 1) p.2 + w p.1 (p.2 - 1) + w p.1 (p.2 + 1)) / 4
                - w p.1 p.2|) 0 :=
  ⟨fun i j h1 h2 h3 h4 => sweep_interior M N w i j h1 h2 h3 h4,
   fun i j h => sweep_not_interior M N w i j h,
   sweep_diff_eq M N w⟩

/-- Witness for C1 at the concrete 3×3 default grid, interior cell (1,1). -/
theorem sweep_spec_witness :
    (sweep 3 3 (initialGrid 3 3)).1 1 1
      = (initialGrid 3 3 (1 - 1) 1 + initialGrid 3 3 (1 + 1) 1
          + initialGrid 3 3 1 (1 - 1) + initialGrid 3 3 1 (1 + 1)) / 4 :=
  (sweep_spec 3 3 (initialGrid 3 3)).1 1 1 le_rfl (by norm_num) le_rfl (by norm_num)

/-- C2: the loop is entered with `diff = epsilon` and the condition
`epsilon <= diff` is checked before each sweep, so the first sweep is
always executed (for any `epsilon ≥ 0`, 0 included); a state whose `diff`
satisfies `diff < epsilon` exits (Converged) immediately, a state with
`epsilon ≤ diff` performs another sweep, and every terminal state has
`diff < epsilon`. -/
theorem getHeat_loop_protocol (M N : ℕ) (eps : ℚ) (w : Grid) (_heps : 0 ≤ eps) :
    (∀ fuel, getHeat M N eps w (fuel + 1) = heatLoop M N eps fuel (loopStep M N ⟨w, eps, 0⟩))
    ∧ (∀ fuel s, getHeat M N eps w fuel = some s → 1 ≤ s.iterations)
    ∧ (∀ fuel s t, heatLoop M N eps fuel s = some t → t.diff < eps)
    ∧ (∀ fuel s, s.diff < eps → heatLoop M N eps fuel s = some s)
    ∧ (∀ fuel s, eps ≤ s.diff → heatLoop M N eps (fuel + 1) s = heatLoop M N eps fuel (loopStep M N s)) :=
  ⟨fun fuel => heatLoop_of_le M N eps fuel ⟨w, eps, 0⟩ le_rfl,
   fun fuel s h => heatLoop_iterations_pos M N eps fuel ⟨w, eps, 0⟩ s h le_rfl,
   fun fuel s t h => heatLoop_some_diff_lt M N eps fuel s t h,
   fun fuel s h => heatLoop_of_lt M N eps fuel s h,
   fun fuel s h => heatLoop_of_le M N eps fuel s h⟩

/-- Witness for C2 at `epsilon = 1` on the 3×3 default grid. -/
theorem getHeat_loop_protocol_witness :
    heatLoop 3 3 1 5 ⟨initialGrid 3 3, 0, 2⟩ = some ⟨initialGrid 3 3, 0, 2⟩ :=
  (getHeat_loop_protocol 3 3 1 (initialGrid 3 3) (by norm_num)).2.2.2.1 5
    ⟨initialGrid 3 3, 0, 2⟩ (show (0 : ℚ) < 1 by norm_num)

/-- C3: after `setBoundaryValue` (west = east = south = 100, north = 0,
the defaults), rows `1..M-2` of the west and east columns hold 100, every
cell of row 0 (corners included) holds 0, and every cell of row `M-1`
(corners included) holds 100; the corners are owned by the north/south
rows because the west/east loops skip rows 0 and `M-1`. -/
theorem setBoundaryValue_spec (M N : ℕ) (w : Grid) (hM : 3 ≤ M) (hN : 3 ≤ N) :
    (∀ i, 1 ≤ i → i ≤ M - 2 →
      setBoundaryValue M N w i 0 = 100 ∧ setBoundaryValue M N w i (N - 1) = 100)
    ∧ (∀ j, j < N → setBoundaryValue M N w 0 j = 0)
    ∧ (∀ j, j < N → setBoundaryValue M N w (M - 1) j = 100) :=
  ⟨fun i h1 h2 =>
    ⟨setBoundaryValue_west M N w i hM hN h1 h2, setBoundaryValue_east M N w i hM hN h1 h2⟩,
   fun j hj => setBoundaryValue_north M N w j hj,
   fun j hj => setBoundaryValue_south M N w j hM hj⟩

/-- Witness for C3 on a 3×3 grid starting from the zero grid. -/
theorem setBoundaryValue_spec_witness :
    setBoundaryValue 3 3 (fun _ _ => 0) 1 0 = 100
    ∧ setBoundaryValue 3 3 (fun _ _ => 0) 0 2 = 0
    ∧ setBoundaryValue 3 3 (fun _ _ => 0) 2 1 = 100 :=
  ⟨((setBoundaryValue_spec 3 3 (fun _ _ => 0) (by norm_num) (by norm_num)).1 1 le_rfl
      (by norm_num)).1,
   (setBoundaryValue_spec 3 3 (fun _ _ => 0) (by norm_num) (by norm_num)).2.1 2 (by norm_num),
   (setBoundaryValue_spec 3 3 (fun _ _ => 0) (by norm_num) (by norm_num)).2.2 1 (by norm_num)⟩

/-- C4: `setAverageBoundary` writes into every interior cell the value
`sum / (2*M + 2*N - 4)`, where `sum` ranges over the boundary cell list
(west and east columns restricted to rows `1..M-2` plus the two full edge
rows); that list has no duplicates (each boundary cell counted exactly
once), has length `2*M + 2*N - 4`, and contains exactly the cells of the
four edges. -/
theorem setAverageBoundary_spec (M N : ℕ) (g : Grid) (hM : 3 ≤ M) (hN : 3 ≤ N) :
    (∀ i j, 1 ≤ i → i ≤ M - 2 → 1 ≤ j → j ≤ N - 2 →
      setAverageBoundary M N g i j
        = ((boundaryCellList M N).map fun p => g p.1 p.2).sum / ((2 * M + 2 * N - 4 : ℕ) : ℚ))
    ∧ (boundaryCellList M N).Nodup
    ∧ (boundaryCellList M N).length = 2 * M + 2 * N - 4
    ∧ (∀ i j, (i, j) ∈ boundaryCellList M N
        ↔ i < M ∧ j < N ∧ (i = 0 ∨ i = M - 1 ∨ j = 0 ∨ j = N - 1)) :=
  ⟨fun i j h1 h2 h3 h4 => setAverageBoundary_interior M N g i j h1 h2 h3 h4,
   boundaryCellList_nodup M N hM hN,
   boundaryCellList_length M N hM hN,
   fun i j => mem_boundaryCellList M N i j hM hN⟩

/-- Witness for C4 at the 3×3 stamped grid, interior cell (1,1). -/
theorem setAverageBoundary_spec_witness :
    setAverageBoundary 3 3 (setBoundaryValue 3 3 fun _ _ => 0) 1 1
      = ((boundaryCellList 3 3).map
          fun p => setBoundaryValue 3 3 (fun _ _ => 0) p.1 p.2).sum
        / ((2 * 3 + 2 * 3 - 4 : ℕ) : ℚ) :=
  (setAverageBoundary_spec 3 3 (setBoundaryValue 3 3 fun _ _ => 0) (by norm_num)
    (by norm_num)).1 1 1 le_rfl (by norm_num) le_rfl (by norm_num)

/-- C5: when the loop terminates with tolerance `epsilon`, every interior
cell of the returned grid is within `epsilon` of the average of its four
neighbors in that same final grid. -/
theorem getHeat_interior_balance (M N : ℕ) (eps : ℚ) (w : Grid) (fuel : ℕ) (s : HeatState)
    (h : getHeat M N eps w fuel = some s) (i j : ℕ)
    (h1 : 1 ≤ i) (h2 : i ≤ M - 2) (h3 : 1 ≤ j) (h4 : j ≤ N - 2) :
    |s.w i j - (s.w (i - 1) j + s.w (i + 1) j + s.w i (j - 1) + s.w i (j + 1)) / 4| ≤ eps := by
  have hlt := heatLoop_some_diff_lt M N eps fuel ⟨w, eps, 0⟩ s h
  rcases heatLoop_some_shape M N eps fuel ⟨w, eps, 0⟩ s h with rfl | ⟨s', rfl⟩
  · exact absurd hlt (lt_irrefl eps)
  · exact le_trans (sweep_near_fixpoint M N s'.w i j h1 h2 h3 h4) hlt.le

/-- Witness for C5: the run with `epsilon = 1` on the 3×3 default grid
terminates, and its final interior cell is within 1 of its neighbor
average. -/
theorem getHeat_interior_balance_witness :
    |(loopStep 3 3 (loopStep 3 3 ⟨initialGrid 3 3, 1, 0⟩)).w 1 1
      - ((loopStep 3 3 (loopStep 3 3 ⟨initialGrid 3 3, 1, 0⟩)).w (1 - 1) 1
          + (loopStep 3 3 (loopStep 3 3 ⟨initialGrid 3 3, 1, 0⟩)).w (1 + 1) 1
          + (loopStep 3 3 (loopStep 3 3 ⟨initialGrid 3 3, 1, 0⟩)).w 1 (1 - 1)
          + (loopStep 3 3 (loopStep 3 3 ⟨initialGrid 3 3, 1, 0⟩)).w 1 (1 + 1)) / 4| ≤ 1 :=
  getHeat_interior_balance 3 3 1 (initialGrid 3 3) 2 _
    (getHeat3_eval 1 (by norm_num) (by norm_num) 0) 1 1 le_rfl (by norm_num) le_rfl (by norm_num)

/-- C6 counterexample: on the 3×3 default grid the first sweep ends with
`diff = 25/2`; with `epsilon = 25/2` the loop does not stop there but runs
a second sweep (final iteration count 2), because the loop condition is
`epsilon <= diff`, not `epsilon < diff`. -/
theorem sweep_diff_eq_eps_continues_cex :
    (sweep 3 3 (initialGrid 3 3)).2 = 25 / 2
    ∧ (getHeat 3 3 (25 / 2) (initialGrid 3 3) 10).map HeatState.iterations = some 2 :=
  ⟨sweep3_diff, getHeat3_iterations (25 / 2) (by norm_num) le_rfl 8⟩

/-- C6 amended: the engine repeats sweeps until `diff < epsilon` (strict);
a sweep ending with `diff` exactly equal to `epsilon` does not terminate
the iteration — another sweep is performed. -/
theorem heatLoop_strict_convergence (M N : ℕ) (eps : ℚ) :
    (∀ fuel s, s.diff = eps →
      heatLoop M N eps (fuel + 1) s = heatLoop M N eps fuel (loopStep M N s))
    ∧ (∀ fuel s t, heatLoop M N eps fuel s = some t → t.diff < eps) :=
  ⟨fun fuel s h => heatLoop_of_le M N eps fuel s (le_of_eq h.symm),
   fun fuel s t h => heatLoop_some_diff_lt M N eps fuel s t h⟩

/-- Witness for amended C6 at the state reached after sweep 1 on the 3×3
default grid, whose `diff` equals `epsilon = 25/2`. -/
theorem heatLoop_strict_convergence_witness :
    heatLoop 3 3 (25 / 2) 6 (loopStep 3 3 ⟨initialGrid 3 3, 25 / 2, 0⟩)
      = heatLoop 3 3 (25 / 2) 5 (loopStep 3 3 (loopStep 3 3 ⟨initialGrid 3 3, 25 / 2, 0⟩)) :=
  (heatLoop_strict_convergence 3 3 (25 / 2)).1 5 (loopStep 3 3 ⟨initialGrid 3 3, 25 / 2, 0⟩)
    sweep3_diff

/-- C7 (code bug): with `epsilon = 0` on the program's own 1000×1000 grid
the loop never terminates: `diff` is nonnegative after every sweep, so the
loop condition `epsilon <= diff` stays true forever. -/
theorem getHeat_eps_zero_never_terminates :
    ∀ fuel : ℕ, getHeat 1000 1000 0 (initialGrid 1000 1000) fuel = none := fun fuel =>
  getHeat_none_of_nonpos 1000 1000 0 le_rfl (initialGrid 1000 1000) fuel

/-- C8 counterexample: with `epsilon = -1` the program raises no error:
the grid is initialized and mutated (the interior cell moves from 125/2 to
75 in the first sweep, and the iteration counter advances), and the loop is
still running after 100 sweeps — there is no fail-fast path for a negative
tolerance anywhere in `main`. -/
theorem negative_eps_not_rejected_cex :
    (getHeat 3 3 (-1) (initialGrid 3 3) 100).isNone = true
    ∧ (loopStep 3 3 ⟨initialGrid 3 3, -1, 0⟩).iterations = 1
    ∧ (sweep 3 3 (initialGrid 3 3)).1 1 1 = 75
    ∧ initialGrid 3 3 1 1 = 125 / 2 := by
  refine ⟨?_, rfl, sweep3_center, initialGrid3_center⟩
  rw [getHeat_none_of_nonpos 3 3 (-1) (by norm_num) (initialGrid 3 3) 100]
  rfl

/-- C8 amended: `main` performs no tolerance validation; a negative
`epsilon` is used unclamped as the initial `diff`, the boundary and
interior initialization and the sweeps all run, and the loop never
terminates (no error is ever reported to the caller). -/
theorem getHeat_neg_eps_no_error (M N : ℕ) (eps : ℚ) (heps : eps < 0) (w : Grid) (fuel : ℕ) :
    getHeat M N eps w fuel = none :=
  getHeat_none_of_nonpos M N eps heps.le w fuel

/-- Witness for amended C8 at `epsilon = -2` on the 3×3 default grid. -/
theorem getHeat_neg_eps_no_error_witness :
    getHeat 3 3 (-2) (initialGrid 3 3) 7 = none :=
  getHeat_neg_eps_no_error 3 3 (-2) (by norm_num) (initialGrid 3 3) 7

/-- C9 counterexample: on the 3×3 default grid `diff` at the end of sweep
1 is 25/2, not 0 (the interior cell moves from the boundary mean 125/2 to
the neighbor average 75). -/
theorem first_sweep_diff_not_zero_cex :
    ((sweep 3 3 (initialGrid 3 3)).2 = 0) = False := by
  rw [sweep3_diff]
  exact eq_false (by norm_num)

/-- C9 amended: on the 3×3 default grid the single interior cell equals
the average of its four boundary neighbors after sweep 1, but sweep 1 ends
with `diff = 25/2`; `diff = 0` is only reached at the end of sweep 2, so
(for any `0 < epsilon ≤ 25/2`, e.g. 1/10) the loop converges after two
sweeps, not one. -/
theorem minimal_grid_two_sweep_convergence :
    (sweep 3 3 (initialGrid 3 3)).1 1 1
        = (initialGrid 3 3 (1 - 1) 1 + initialGrid 3 3 (1 + 1) 1
            + initialGrid 3 3 1 (1 - 1) + initialGrid 3 3 1 (1 + 1)) / 4
    ∧ (sweep 3 3 (initialGrid 3 3)).2 = 25 / 2
    ∧ (sweep 3 3 (sweep 3 3 (initialGrid 3 3)).1).2 = 0
    ∧ (getHeat 3 3 (1 / 10) (initialGrid 3 3) 10).map HeatState.iterations = some 2 := by
  refine ⟨?_, sweep3_diff, sweep3_second_diff,
    getHeat3_iterations (1 / 10) (by norm_num) (by norm_num) 8⟩
  rw [sweep_interior 3 3 _ 1 1 le_rfl (by norm_num) le_rfl (by norm_num)]
  rfl

/-- C10: every cell of the grid stays in the closed interval [0, 100]
(the minimum and maximum of the default boundary values) after
initialization and after every sweep, and boundary cells keep their
stamped values forever. -/
theorem jacobiSeq_range_invariant (M N : ℕ) (hM : 3 ≤ M) (hN : 3 ≤ N) :
    (∀ k i j, i < M → j < N → 0 ≤ jacobiSeq M N k i j ∧ jacobiSeq M N k i j ≤ 100)
    ∧ (∀ k i j, i = 0 ∨ i = M - 1 ∨ j = 0 ∨ j = N - 1 →
        jacobiSeq M N k i j = initialGrid M N i j) :=
  ⟨fun k => jacobiSeq_bounds_all M N hM hN k,
   fun k i j hb => jacobiSeq_boundary_fixed M N hM hN k i j hb⟩

/-- Witness for C10 on the 3×3 default grid after one sweep. -/
theorem jacobiSeq_range_invariant_witness :
    (0 ≤ jacobiSeq 3 3 1 1 1 ∧ jacobiSeq 3 3 1 1 1 ≤ 100)
    ∧ jacobiSeq 3 3 5 0 1 = initialGrid 3 3 0 1 :=
  ⟨(jacobiSeq_range_invariant 3 3 (by norm_num) (by norm_num)).1 1 1 1 (by norm_num)
      (by norm_num),
   (jacobiSeq_range_invariant 3 3 (by norm_num) (by norm_num)).2 5 0 1 (Or.inl rfl)⟩
